import Mathlib

/-!
Verification of the time-limits script in src/foundations/time/limits.py.

The script works entirely in IEEE-754 double precision (Python floats).
We embed that arithmetic exactly: every double is the rational number it
denotes, and every arithmetic operation first computes the exact rational
result and then rounds it to 53 significant bits with round-to-nearest,
ties-to-even, which is exactly what IEEE-754 binary64 does for values in
the normal range.  All values manipulated by the script (and all concrete
values appearing in the claims) are in the normal range, far away from
overflow and subnormal underflow, so this model agrees with binary64
arithmetic on everything proved below.
-/

/- Batteries marks the arithmetic on `Rat` `@[irreducible]`, which blocks
the `decide` tactic's evaluator (the kernel itself can evaluate it just
fine).  Restore the default reducibility so concrete computations with the
model below can be settled by `decide`. -/
set_option allowUnsafeReducibility true in
attribute [semireducible] Rat.add Rat.sub Rat.mul Rat.inv

set_option maxRecDepth 1000000

namespace TimeLimits

/-- Round a rational to the nearest integer, ties to even: the rounding
rule IEEE-754 applies to the scaled significand. -/
def rne (q : ℚ) : ℤ :=
  if q - ⌊q⌋ < 1 / 2 then ⌊q⌋
  else if 1 / 2 < q - ⌊q⌋ then ⌊q⌋ + 1
  else if ⌊q⌋ % 2 = 0 then ⌊q⌋ else ⌊q⌋ + 1

/-- Walk the power of two `p` (with `s = p / 2^52` kept alongside)
downward until `p ≤ q`, returning `s`.  Used for magnitudes below 1. -/
def findScaleDown : ℕ → ℚ → ℚ → ℚ → ℚ
  | 0, _, _, s => s
  | f + 1, q, p, s => if p ≤ q then s else findScaleDown f q (p / 2) (s / 2)

/-- Walk the power of two `p` (with `s = p / 2^52` kept alongside)
upward until `q < 2 * p`, returning `s`.  Used for magnitudes at least 1. -/
def findScaleUp : ℕ → ℚ → ℚ → ℚ → ℚ
  | 0, _, _, s => s
  | f + 1, q, p, s => if q < 2 * p then s else findScaleUp f q (2 * p) (2 * s)

/-- The value of one unit in the last place at positive magnitude `q`:
`2 ^ (e - 52)` where `2 ^ e ≤ q < 2 ^ (e + 1)`.  The fuel 1200 covers
every exponent a binary64 value can have, with ample margin. -/
def ulpScale (q : ℚ) : ℚ :=
  if q < 1 then findScaleDown 1200 q 1 (1 / 2 ^ 52)
  else findScaleUp 1200 q 1 (1 / 2 ^ 52)

/-- Round a positive rational to 53 significant bits, nearest, ties to even. -/
def roundPos (q : ℚ) : ℚ :=
  let s := ulpScale q
  rne (q / s) * s

/-- Round an exact rational result to the binary64 value the hardware
would produce (normal range, round to nearest, ties to even). -/
def fl (q : ℚ) : ℚ :=
  if q = 0 then 0
  else if q < 0 then -roundPos (-q)
  else roundPos q

/-- Binary64 addition: round the exact sum. -/
def fadd (a b : ℚ) : ℚ := fl (a + b)

/-- Binary64 subtraction: round the exact difference. -/
def fsub (a b : ℚ) : ℚ := fl (a - b)

/-- Binary64 multiplication: round the exact product. -/
def fmul (a b : ℚ) : ℚ := fl (a * b)

/-- Binary64 division: round the exact quotient. -/
def fdiv (a b : ℚ) : ℚ := fl (a / b)

/-- Python's `int(x)` on a float: truncation toward zero. -/
def pyint (q : ℚ) : ℤ := if q < 0 then -⌊-q⌋ else ⌊q⌋

/-! The straight-line computation of the script, line by line.

`0.01` is a source literal; Python parses it to the nearest double.
`2 ** 52` is an exact integer, converted exactly to float. -/

/-- The double denoted by the source literal `0.01`. -/
def lit_0_01 : ℚ := fl (1 / 100)

/-- `max_time_seconds = 0.01 * (2 ** 52)`. -/
def max_time_seconds : ℚ := fmul lit_0_01 (2 ^ 52)

/-- `sys.float_info.epsilon`: the machine epsilon of binary64, 2⁻⁵². -/
def float_epsilon : ℚ := 1 / 2 ^ 52

/-- `next_value = max_time_seconds + max_time_seconds * sys.float_info.epsilon`. -/
def next_value : ℚ := fadd max_time_seconds (fmul max_time_seconds float_epsilon)

/-- `spacing = next_value - max_time_seconds`. -/
def spacing : ℚ := fsub next_value max_time_seconds

/-- The same empirical spacing measurement at an arbitrary value `x`:
`(x + x * sys.float_info.epsilon) - x` in double arithmetic. -/
def spacingAt (x : ℚ) : ℚ := fsub (fadd x (fmul x float_epsilon)) x

/-- `seconds_per_minute = 60.0` (exactly representable). -/
def seconds_per_minute : ℚ := 60

/-- `seconds_per_hour = 60.0 * seconds_per_minute`. -/
def seconds_per_hour : ℚ := fmul 60 seconds_per_minute

/-- `seconds_per_day = 24.0 * seconds_per_hour`. -/
def seconds_per_day : ℚ := fmul 24 seconds_per_hour

/-- `seconds_per_year = 365.25 * seconds_per_day`; the literal `365.25`
is the exactly representable double 1461/4. -/
def seconds_per_year : ℚ := fmul (1461 / 4) seconds_per_day

/-- The five components the script prints. -/
structure DurationBreakdown where
  years : ℤ
  days : ℤ
  hours : ℤ
  minutes : ℤ
  seconds : ℚ
  deriving DecidableEq, Repr

/-! The formatter block of the script, as a function of the value held in
`remaining` when the block starts.  In the script the block runs once with
`remaining = max_time_seconds`; the specification describes it as a
function of an arbitrary nonnegative input, so we parametrise by it.
A Python `int * float` product converts the int to float first (one
rounding), then multiplies (a second rounding): `fmul (fl n) c`. -/

/-- `years = int(remaining / seconds_per_year)`. -/
def years_of (r : ℚ) : ℤ := pyint (fdiv r seconds_per_year)

/-- `remaining -= years * seconds_per_year`. -/
def rem1 (r : ℚ) : ℚ := fsub r (fmul (fl (years_of r)) seconds_per_year)

/-- `days = int(remaining / seconds_per_day)`. -/
def days_of (r : ℚ) : ℤ := pyint (fdiv (rem1 r) seconds_per_day)

/-- `remaining -= days * seconds_per_day`. -/
def rem2 (r : ℚ) : ℚ := fsub (rem1 r) (fmul (fl (days_of r)) seconds_per_day)

/-- `hours = int(remaining / seconds_per_hour)`. -/
def hours_of (r : ℚ) : ℤ := pyint (fdiv (rem2 r) seconds_per_hour)

/-- `remaining -= hours * seconds_per_hour`. -/
def rem3 (r : ℚ) : ℚ := fsub (rem2 r) (fmul (fl (hours_of r)) seconds_per_hour)

/-- `minutes = int(remaining / seconds_per_minute)`. -/
def minutes_of (r : ℚ) : ℤ := pyint (fdiv (rem3 r) seconds_per_minute)

/-- `remaining -= minutes * seconds_per_minute`. -/
def rem4 (r : ℚ) : ℚ := fsub (rem3 r) (fmul (fl (minutes_of r)) seconds_per_minute)

/-- The whole formatter: the tuple the script prints. -/
def format (r : ℚ) : DurationBreakdown :=
  ⟨years_of r, days_of r, hours_of r, minutes_of r, rem4 r⟩

/-- Summing a breakdown back to seconds with the fixed conversion
constants of the specification. -/
def reconstruct (b : DurationBreakdown) : ℚ :=
  b.years * 31557600 + b.days * 86400 + b.hours * 3600 + b.minutes * 60 + b.seconds

/-! The greedy extraction procedure exactly as the specification words it
for claim C4: "each step computes unit_count = floor(remaining / divisor)
and then subtracts unit_count × divisor from remaining", with the
divisors given as the fixed constants 31,557,600 / 86,400 / 3,600 / 60.
Same double arithmetic, but the unit count is the floor of the quotient
(the specification's words) rather than Python's truncation toward zero
(the code's `int(...)`). -/

/-- Claim-side years step: floor of the quotient by 31,557,600. -/
def yearsSpec (r : ℚ) : ℤ := ⌊fdiv r 31557600⌋

/-- Claim-side remainder after the years step. -/
def rem1Spec (r : ℚ) : ℚ := fsub r (fmul (fl (yearsSpec r)) 31557600)

/-- Claim-side days step: floor of the quotient by 86,400. -/
def daysSpec (r : ℚ) : ℤ := ⌊fdiv (rem1Spec r) 86400⌋

/-- Claim-side remainder after the days step. -/
def rem2Spec (r : ℚ) : ℚ := fsub (rem1Spec r) (fmul (fl (daysSpec r)) 86400)

/-- Claim-side hours step: floor of the quotient by 3,600. -/
def hoursSpec (r : ℚ) : ℤ := ⌊fdiv (rem2Spec r) 3600⌋

/-- Claim-side remainder after the hours step. -/
def rem3Spec (r : ℚ) : ℚ := fsub (rem2Spec r) (fmul (fl (hoursSpec r)) 3600)

/-- Claim-side minutes step: floor of the quotient by 60. -/
def minutesSpec (r : ℚ) : ℤ := ⌊fdiv (rem3Spec r) 60⌋

/-- Claim-side remainder after the minutes step: the seconds component. -/
def rem4Spec (r : ℚ) : ℚ := fsub (rem3Spec r) (fmul (fl (minutesSpec r)) 60)

/-- The formatter as the specification describes it (claim C4). -/
def formatSpec (r : ℚ) : DurationBreakdown :=
  ⟨yearsSpec r, daysSpec r, hoursSpec r, minutesSpec r, rem4Spec r⟩

/-- `x` is a positive normal binary64 value: a 53-bit significand
`m ∈ [2^52, 2^53)` scaled by `2^e`, with `e` ranging over the IEEE-754
normal exponent range (values from `2^-1022` up to just below `2^1024`). -/
def isNormalDouble (x : ℚ) : Prop :=
  ∃ m : ℕ, ∃ e : ℤ,
    2 ^ 52 ≤ m ∧ m < 2 ^ 53 ∧ -1074 ≤ e ∧ e ≤ 971 ∧ x = (m : ℚ) * 2 ^ e

/-! Basic facts about the rounding model. -/

theorem rne_intCast (n : ℤ) : rne (n : ℚ) = n := by
  unfold rne
  norm_num [Int.floor_intCast]

theorem floor_le_rne (q : ℚ) : ⌊q⌋ ≤ rne q := by
  unfold rne
  split_ifs <;> omega

theorem rne_le_floor_add_one (q : ℚ) : rne q ≤ ⌊q⌋ + 1 := by
  unfold rne
  split_ifs <;> omega

theorem rne_nonneg {q : ℚ} (h : 0 ≤ q) : 0 ≤ rne q := by
  have h0 : (0 : ℤ) ≤ ⌊q⌋ := Int.floor_nonneg.mpr h
  have := floor_le_rne q
  omega

theorem rne_eq_floor {q : ℚ} (h : q - ⌊q⌋ < 1 / 2) : rne q = ⌊q⌋ := by
  unfold rne
  rw [if_pos h]

theorem findScaleDown_pos :
    ∀ (f : ℕ) (q p s : ℚ), 0 < s → 0 < findScaleDown f q p s := by
  intro f
  induction f with
  | zero => intro q p s hs; exact hs
  | succ f ih =>
    intro q p s hs
    unfold findScaleDown
    split
    · exact hs
    · exact ih q (p / 2) (s / 2) (by positivity)

theorem findScaleUp_pos :
    ∀ (f : ℕ) (q p s : ℚ), 0 < s → 0 < findScaleUp f q p s := by
  intro f
  induction f with
  | zero => intro q p s hs; exact hs
  | succ f ih =>
    intro q p s hs
    unfold findScaleUp
    split
    · exact hs
    · exact ih q (2 * p) (2 * s) (by positivity)

theorem ulpScale_pos (q : ℚ) : 0 < ulpScale q := by
  unfold ulpScale
  have h : (0 : ℚ) < 1 / 2 ^ 52 := by positivity
  split
  · exact findScaleDown_pos _ _ _ _ h
  · exact findScaleUp_pos _ _ _ _ h

theorem fl_nonneg {q : ℚ} (h : 0 ≤ q) : 0 ≤ fl q := by
  unfold fl
  split_ifs with h0 hneg
  · exact le_refl 0
  · exact absurd hneg (not_lt.mpr h)
  · unfold roundPos
    have hs := ulpScale_pos q
    have hq : 0 ≤ q / ulpScale q := div_nonneg h hs.le
    exact mul_nonneg (by exact_mod_cast rne_nonneg hq) hs.le

theorem pyint_eq_floor {q : ℚ} (h : 0 ≤ q) : pyint q = ⌊q⌋ := by
  unfold pyint
  rw [if_neg (not_lt.mpr h)]

theorem fdiv_nonneg {a b : ℚ} (ha : 0 ≤ a) (hb : 0 ≤ b) : 0 ≤ fdiv a b :=
  fl_nonneg (div_nonneg ha hb)

/-! Characterisation of the rounding scale: on the binade
`2 ^ e ≤ q < 2 ^ (e + 1)` the scale found by the fuel recursion is
exactly `2 ^ (e - 52)`. -/

theorem two_zpow_half (c : ℤ) : (2 : ℚ) ^ c / 2 = 2 ^ (c - 1) := by
  rw [div_eq_mul_inv, ← zpow_neg_one, ← zpow_add₀ (by norm_num : (2 : ℚ) ≠ 0),
    sub_eq_add_neg]

theorem two_zpow_double (c : ℤ) : 2 * (2 : ℚ) ^ c = 2 ^ (c + 1) := by
  calc 2 * (2 : ℚ) ^ c = 2 ^ (1 : ℤ) * 2 ^ c := by rw [zpow_one]
    _ = 2 ^ (1 + c) := (zpow_add₀ (by norm_num) 1 c).symm
    _ = 2 ^ (c + 1) := by rw [add_comm]

theorem findScaleDown_eq (f : ℕ) :
    ∀ (c e : ℤ) (q : ℚ), e ≤ c → (c - e).toNat ≤ f →
      (2 : ℚ) ^ e ≤ q → q < 2 ^ (e + 1) →
      findScaleDown f q ((2 : ℚ) ^ c) ((2 : ℚ) ^ (c - 52)) = 2 ^ (e - 52) := by
  induction f with
  | zero =>
    intro c e q hec hf h1 h2
    have hce : c = e := by omega
    subst hce
    rfl
  | succ f ih =>
    intro c e q hec hf h1 h2
    by_cases hce : c = e
    · subst hce
      unfold findScaleDown
      rw [if_pos h1]
    · have hlt : e < c := lt_of_le_of_ne hec fun h => hce h.symm
      have hq : ¬ ((2 : ℚ) ^ c ≤ q) := by
        have h21 : (2 : ℚ) ^ (e + 1) ≤ 2 ^ c :=
          zpow_le_zpow_right₀ (by norm_num) (by omega)
        exact not_le.mpr (lt_of_lt_of_le h2 h21)
      unfold findScaleDown
      rw [if_neg hq, two_zpow_half, show (2 : ℚ) ^ (c - 52) / 2 = 2 ^ (c - 1 - 52) by
        rw [two_zpow_half]; congr 1; ring]
      exact ih (c - 1) e q (by omega) (by omega) h1 h2

theorem findScaleUp_eq (f : ℕ) :
    ∀ (c e : ℤ) (q : ℚ), c ≤ e → (e - c).toNat ≤ f →
      (2 : ℚ) ^ e ≤ q → q < 2 ^ (e + 1) →
      findScaleUp f q ((2 : ℚ) ^ c) ((2 : ℚ) ^ (c - 52)) = 2 ^ (e - 52) := by
  induction f with
  | zero =>
    intro c e q hce hf h1 h2
    have : c = e := by omega
    subst this
    rfl
  | succ f ih =>
    intro c e q hce hf h1 h2
    by_cases hc : c = e
    · subst hc
      unfold findScaleUp
      rw [if_pos (by rw [two_zpow_double]; exact h2)]
    · have hlt : c < e := lt_of_le_of_ne hce hc
      have hq : ¬ (q < 2 * (2 : ℚ) ^ c) := by
        rw [two_zpow_double]
        have h21 : (2 : ℚ) ^ (c + 1) ≤ 2 ^ e :=
          zpow_le_zpow_right₀ (by norm_num) (by omega)
        exact not_lt.mpr (le_trans h21 h1)
      unfold findScaleUp
      rw [if_neg hq, two_zpow_double, show 2 * (2 : ℚ) ^ (c - 52) = 2 ^ (c + 1 - 52) by
        rw [two_zpow_double]; congr 1; ring]
      exact ih (c + 1) e q (by omega) (by omega) h1 h2

theorem ulpScale_eq {e : ℤ} {q : ℚ} (hel : -1150 ≤ e) (heu : e ≤ 1150)
    (h1 : (2 : ℚ) ^ e ≤ q) (h2 : q < 2 ^ (e + 1)) :
    ulpScale q = 2 ^ (e - 52) := by
  have e1 : ((2 : ℚ) ^ (0 : ℤ)) = 1 := zpow_zero 2
  have e2 : ((2 : ℚ) ^ ((0 : ℤ) - 52)) = 1 / 2 ^ 52 := by norm_num
  unfold ulpScale
  by_cases hq1 : q < 1
  · rw [if_pos hq1]
    have he : e < 0 := by
      by_contra hh
      push_neg at hh
      have h10 : (2 : ℚ) ^ (0 : ℤ) ≤ 2 ^ e := zpow_le_zpow_right₀ (by norm_num) hh
      rw [e1] at h10
      linarith
    have h0 := findScaleDown_eq 1200 0 e q (by omega) (by omega) h1 h2
    rw [e1, e2] at h0
    exact h0
  · rw [if_neg hq1]
    push_neg at hq1
    have he : 0 ≤ e := by
      by_contra hh
      push_neg at hh
      have h10 : (2 : ℚ) ^ (e + 1) ≤ 2 ^ (0 : ℤ) := zpow_le_zpow_right₀ (by norm_num) (by omega)
      rw [e1] at h10
      linarith
    have h0 := findScaleUp_eq 1200 0 e q (by omega) (by omega) h1 h2
    rw [e1, e2] at h0
    exact h0

theorem fl_eq_binade {e : ℤ} {q : ℚ} (hel : -1150 ≤ e) (heu : e ≤ 1150)
    (h1 : (2 : ℚ) ^ e ≤ q) (h2 : q < 2 ^ (e + 1)) :
    fl q = rne (q / 2 ^ (e - 52)) * 2 ^ (e - 52) := by
  have hq0 : (0 : ℚ) < q := lt_of_lt_of_le (zpow_pos (by norm_num) e) h1
  unfold fl roundPos
  rw [if_neg (ne_of_gt hq0), if_neg (not_lt.mpr hq0.le), ulpScale_eq hel heu h1 h2]

theorem rne_natCast (n : ℕ) : rne (n : ℚ) = n := by
  have h := rne_intCast (n : ℤ)
  rw [Int.cast_natCast] at h
  exact h

/-- Normal binary64 values are fixed points of the rounding: a 53-bit
significand times a power of two rounds to itself. -/
theorem fl_fix {m : ℕ} {E : ℤ} (h52 : 2 ^ 52 ≤ m) (h53 : m < 2 ^ 53)
    (hel : -1150 ≤ E + 52) (heu : E + 52 ≤ 1150) :
    fl ((m : ℚ) * 2 ^ E) = (m : ℚ) * 2 ^ E := by
  have h2E : (0 : ℚ) < 2 ^ E := zpow_pos (by norm_num) E
  have hmQ : (4503599627370496 : ℚ) ≤ (m : ℚ) := by exact_mod_cast h52
  have hmQ' : (m : ℚ) < 9007199254740992 := by exact_mod_cast h53
  have hz52 : (2 : ℚ) ^ (52 : ℤ) = 4503599627370496 := by norm_num
  have hz53 : (2 : ℚ) ^ (53 : ℤ) = 9007199254740992 := by norm_num
  have h1 : (2 : ℚ) ^ (E + 52) ≤ (m : ℚ) * 2 ^ E := by
    rw [zpow_add₀ (by norm_num : (2 : ℚ) ≠ 0), mul_comm ((2 : ℚ) ^ E), hz52]
    exact mul_le_mul_of_nonneg_right hmQ h2E.le
  have h2 : (m : ℚ) * 2 ^ E < 2 ^ (E + 52 + 1) := by
    rw [show E + 52 + 1 = E + 53 by ring, zpow_add₀ (by norm_num : (2 : ℚ) ≠ 0),
      mul_comm ((2 : ℚ) ^ E), hz53]
    exact mul_lt_mul_of_pos_right hmQ' h2E
  rw [fl_eq_binade (by omega) (by omega) h1 h2]
  rw [show E + 52 - 52 = E by ring, mul_div_assoc, div_self (ne_of_gt h2E), mul_one,
    rne_natCast]
  push_cast
  ring

theorem float_epsilon_eq : float_epsilon = (2 : ℚ) ^ (-52 : ℤ) := by
  unfold float_epsilon
  norm_num

theorem fl_two_zpow {e : ℤ} (hel : -1150 ≤ e) (heu : e ≤ 1150) :
    fl ((2 : ℚ) ^ e) = 2 ^ e := by
  have h2pow : ((2 ^ 52 : ℕ) : ℚ) = 2 ^ (52 : ℤ) := by norm_num
  have hsplit : (2 : ℚ) ^ e = ((2 ^ 52 : ℕ) : ℚ) * 2 ^ (e - 52) := by
    rw [h2pow, ← zpow_add₀ (by norm_num : (2 : ℚ) ≠ 0)]
    congr 1
    ring
  rw [hsplit, fl_fix (le_refl _) (by norm_num) (by omega) (by omega), ← hsplit]

/-- The empirically measured spacing at any positive normal double below
`max_time_seconds` is at most the spacing measured at `max_time_seconds`
itself.  (Equality occurs, e.g. at `2 ^ 45`, so "at most" cannot be
strengthened to "strictly below".) -/
theorem spacingAt_le_spacingAt_max (m : ℕ) (e : ℤ)
    (h52 : 2 ^ 52 ≤ m) (h53 : m < 2 ^ 53) (hel : -1074 ≤ e) (heu : e ≤ 971)
    (hlt : (m : ℚ) * 2 ^ e < max_time_seconds) :
    spacingAt ((m : ℚ) * 2 ^ e) ≤ spacingAt max_time_seconds := by
  have hmax : spacingAt max_time_seconds = 1 / 128 := by decide
  have hmts : max_time_seconds = 5764607523034235 / 128 := by decide
  have h2e : (0 : ℚ) < 2 ^ e := zpow_pos (by norm_num) e
  have hmQ : (4503599627370496 : ℚ) ≤ (m : ℚ) := by exact_mod_cast h52
  have hmQ' : (m : ℚ) < 9007199254740992 := by exact_mod_cast h53
  have hz52 : (2 : ℚ) ^ (52 : ℤ) = 4503599627370496 := by norm_num
  have hz53 : (2 : ℚ) ^ (53 : ℤ) = 9007199254740992 := by norm_num
  have heps : (2 : ℚ) ^ (-52 : ℤ) = 1 / 4503599627370496 := by norm_num
  have hz7 : (2 : ℚ) ^ (-7 : ℤ) = 1 / 128 := by norm_num
  have htwo : (2 : ℚ) ≠ 0 := by norm_num
  -- the magnitude bound forces the binade of the input at or below that of x_max
  have he7 : e ≤ -7 := by
    by_contra hh
    push_neg at hh
    have h46 : (2 : ℚ) ^ (46 : ℤ) ≤ 2 ^ (e + 52) :=
      zpow_le_zpow_right₀ (by norm_num) (by omega)
    have hx46 : (2 : ℚ) ^ (e + 52) ≤ (m : ℚ) * 2 ^ e := by
      rw [zpow_add₀ htwo, mul_comm ((2 : ℚ) ^ e), hz52]
      exact mul_le_mul_of_nonneg_right hmQ h2e.le
    rw [hmts] at hlt
    have h46v : (2 : ℚ) ^ (46 : ℤ) = 70368744177664 := by norm_num
    have := le_trans h46 hx46
    linarith
  -- multiplying by the machine epsilon is exact here
  have hA : fmul ((m : ℚ) * 2 ^ e) float_epsilon = (m : ℚ) * 2 ^ (e - 52) := by
    unfold fmul
    rw [float_epsilon_eq,
      show (m : ℚ) * 2 ^ e * 2 ^ (-52 : ℤ) = (m : ℚ) * 2 ^ (e - 52) by
        rw [mul_assoc, ← zpow_add₀ htwo, sub_eq_add_neg]]
    exact fl_fix h52 h53 (by omega) (by omega)
  have hsum : (m : ℚ) * 2 ^ e + (m : ℚ) * 2 ^ (e - 52) =
      ((m : ℚ) + (m : ℚ) * 2 ^ (-52 : ℤ)) * 2 ^ e := by
    have hs : (2 : ℚ) ^ (e - 52) = 2 ^ (-52 : ℤ) * 2 ^ e := by
      rw [← zpow_add₀ htwo]
      congr 1
      ring
    rw [hs]
    ring
  have hg1 : (1 : ℚ) ≤ (m : ℚ) * 2 ^ (-52 : ℤ) := by
    rw [heps, mul_one_div, le_div_iff₀ (by norm_num)]
    linarith
  have hg2 : (m : ℚ) * 2 ^ (-52 : ℤ) < 2 := by
    rw [heps, mul_one_div, div_lt_iff₀ (by norm_num)]
    linarith
  have hsp : spacingAt ((m : ℚ) * 2 ^ e) =
      fsub (fl (((m : ℚ) + (m : ℚ) * 2 ^ (-52 : ℤ)) * 2 ^ e)) ((m : ℚ) * 2 ^ e) := by
    unfold spacingAt fadd
    rw [hA, hsum]
  rw [hmax, hsp]
  by_cases hm53 : m = 2 ^ 53 - 1
  -- top-of-binade significand: the sum crosses into the next binade and
  -- rounds back down to the power of two, so the measured gap is one ulp
  · have hmQ53 : (m : ℚ) = 9007199254740991 := by
      rw [hm53]
      norm_num
    rw [hmQ53]
    set N : ℚ := 9007199254740991 + 9007199254740991 * 2 ^ (-52 : ℤ) with hNdef
    have hNex : N = 9007199254740991 + 9007199254740991 / 4503599627370496 := by
      rw [hNdef, heps, mul_one_div]
    have hN1 : (2 : ℚ) ^ (e + 53) ≤ N * 2 ^ e := by
      rw [zpow_add₀ htwo, mul_comm ((2 : ℚ) ^ e), hz53]
      apply mul_le_mul_of_nonneg_right _ h2e.le
      rw [hNex]
      norm_num
    have hN2 : N * 2 ^ e < 2 ^ (e + 53 + 1) := by
      have hz54 : (2 : ℚ) ^ (54 : ℤ) = 18014398509481984 := by norm_num
      rw [show e + 53 + 1 = e + 54 by ring, zpow_add₀ htwo, mul_comm ((2 : ℚ) ^ e), hz54]
      apply mul_lt_mul_of_pos_right _ h2e
      rw [hNex]
      norm_num
    have hdivN : N * 2 ^ e / 2 ^ (e + 1) = N / 2 := by
      rw [show (2 : ℚ) ^ (e + 1) = 2 ^ e * 2 by rw [zpow_add₀ htwo, zpow_one],
        ← div_div, mul_div_cancel_right₀ _ h2e.ne']
    have hfl2 : ⌊N / 2⌋ = 4503599627370496 := by
      apply Int.floor_eq_iff.mpr
      constructor
      · rw [hNex]
        push_cast
        norm_num
      · rw [hNex]
        push_cast
        norm_num
    have hfrac2 : N / 2 - (⌊N / 2⌋ : ℚ) < 1 / 2 := by
      rw [hfl2, hNex]
      push_cast
      norm_num
    have hrneN : rne (N / 2) = 4503599627370496 := by
      rw [rne_eq_floor hfrac2, hfl2]
    have flv : fl (N * 2 ^ e) = 4503599627370496 * 2 ^ (e + 1) := by
      rw [fl_eq_binade (by omega) (by omega) hN1 hN2,
        show e + 53 - 52 = e + 1 by ring, hdivN, hrneN]
      norm_num
    unfold fsub
    rw [flv, show (4503599627370496 : ℚ) * 2 ^ (e + 1) - 9007199254740991 * 2 ^ e = 2 ^ e by
      rw [zpow_add₀ htwo, zpow_one]; ring]
    rw [fl_two_zpow (by omega) (by omega)]
    exact le_trans (zpow_le_zpow_right₀ (by norm_num) he7) (le_of_eq hz7)
  -- ordinary significand: the sum stays in the same binade and rounds to
  -- one or two ulps above the input
  · have hm2 : m ≤ 2 ^ 53 - 2 := by omega
    have hmQ2 : (m : ℚ) ≤ 9007199254740990 := by exact_mod_cast hm2
    set N : ℚ := (m : ℚ) + (m : ℚ) * 2 ^ (-52 : ℤ) with hNdef
    have hfloor : ⌊N⌋ = (m : ℤ) + 1 := by
      apply Int.floor_eq_iff.mpr
      constructor
      · push_cast
        linarith
      · push_cast
        linarith
    have hN1 : (2 : ℚ) ^ (e + 52) ≤ N * 2 ^ e := by
      rw [zpow_add₀ htwo, mul_comm ((2 : ℚ) ^ e), hz52]
      apply mul_le_mul_of_nonneg_right _ h2e.le
      linarith
    have hN2 : N * 2 ^ e < 2 ^ (e + 52 + 1) := by
      rw [show e + 52 + 1 = e + 53 by ring, zpow_add₀ htwo, mul_comm ((2 : ℚ) ^ e), hz53]
      apply mul_lt_mul_of_pos_right _ h2e
      linarith
    have flv : fl (N * 2 ^ e) = ((rne N : ℤ) : ℚ) * 2 ^ e := by
      rw [fl_eq_binade (by omega) (by omega) hN1 hN2,
        show e + 52 - 52 = e by ring, mul_div_cancel_right₀ _ h2e.ne']
    have hrl : (m : ℤ) + 1 ≤ rne N := hfloor ▸ floor_le_rne N
    have hru : rne N ≤ (m : ℤ) + 2 := by
      have := rne_le_floor_add_one N
      omega
    rcases (by omega : rne N = (m : ℤ) + 1 ∨ rne N = (m : ℤ) + 2) with hc | hc
    · have hdiff : ((rne N : ℤ) : ℚ) * 2 ^ e - (m : ℚ) * 2 ^ e = 2 ^ e := by
        rw [hc]
        push_cast
        ring
      unfold fsub
      rw [flv, hdiff, fl_two_zpow (by omega) (by omega)]
      exact le_trans (zpow_le_zpow_right₀ (by norm_num) he7) (le_of_eq hz7)
    · have he8 : e ≤ -8 := by
        by_contra hh
        push_neg at hh
        have hee : e = -7 := by omega
        rw [hee, hz7, hmts] at hlt
        have hmlt : (m : ℚ) < 5764607523034235 := by
          have h128 : (0 : ℚ) < 1 / 128 := by norm_num
          nlinarith
        have hhalf : (m : ℚ) * (1 / 4503599627370496) < 3 / 2 := by
          rw [mul_one_div, div_lt_iff₀ (by norm_num)]
          linarith
        have hfrac : N - ((⌊N⌋ : ℤ) : ℚ) < 1 / 2 := by
          rw [hfloor, hNdef, heps]
          push_cast
          linarith
        have := rne_eq_floor hfrac
        rw [hfloor] at this
        omega
      have hdiff : ((rne N : ℤ) : ℚ) * 2 ^ e - (m : ℚ) * 2 ^ e = 2 ^ (e + 1) := by
        rw [hc, zpow_add₀ htwo, zpow_one]
        push_cast
        ring
      unfold fsub
      rw [flv, hdiff, fl_two_zpow (by omega) (by omega)]
      have hle : (2 : ℚ) ^ (e + 1) ≤ 2 ^ (-7 : ℤ) :=
        zpow_le_zpow_right₀ (by norm_num) (by omega)
      rw [hz7] at hle
      exact hle

/-- Claim C4 (amended): the duration formatter extracts whole units
greedily in the fixed order years, days, hours, minutes with divisors
31,557,600 / 86,400 / 3,600 / 60, each unit count obtained by truncating
the double-precision quotient toward zero — which agrees with the claimed
`floor(remaining / divisor)` whenever the running remainder stays
nonnegative (as it does for the program's own input, but not for every
nonnegative double input). -/
theorem C4_format_is_greedy_floor_extraction (r : ℚ) (h0 : 0 ≤ r)
    (h1 : 0 ≤ rem1 r) (h2 : 0 ≤ rem2 r) (h3 : 0 ≤ rem3 r) :
    format r = formatSpec r := by
  have hY : seconds_per_year = 31557600 := by decide
  have hD : seconds_per_day = 86400 := by decide
  have hH : seconds_per_hour = 3600 := by decide
  have hM : seconds_per_minute = 60 := rfl
  have ey : years_of r = yearsSpec r := by
    unfold years_of yearsSpec
    rw [hY]
    exact pyint_eq_floor (fdiv_nonneg h0 (by norm_num))
  have er1 : rem1 r = rem1Spec r := by
    unfold rem1 rem1Spec
    rw [ey, hY]
  have h1' : 0 ≤ rem1Spec r := er1 ▸ h1
  have ed : days_of r = daysSpec r := by
    unfold days_of daysSpec
    rw [er1, hD]
    exact pyint_eq_floor (fdiv_nonneg h1' (by norm_num))
  have er2 : rem2 r = rem2Spec r := by
    unfold rem2 rem2Spec
    rw [er1, ed, hD]
  have h2' : 0 ≤ rem2Spec r := er2 ▸ h2
  have eh : hours_of r = hoursSpec r := by
    unfold hours_of hoursSpec
    rw [er2, hH]
    exact pyint_eq_floor (fdiv_nonneg h2' (by norm_num))
  have er3 : rem3 r = rem3Spec r := by
    unfold rem3 rem3Spec
    rw [er2, eh, hH]
  have h3' : 0 ≤ rem3Spec r := er3 ▸ h3
  have em : minutes_of r = minutesSpec r := by
    unfold minutes_of minutesSpec
    rw [er3, hM]
    exact pyint_eq_floor (fdiv_nonneg h3' (by norm_num))
  have er4 : rem4 r = rem4Spec r := by
    unfold rem4 rem4Spec
    rw [er3, em, hM]
  unfold format formatSpec
  rw [ey, ed, eh, em, er4]

/-! The claims. -/

/-- Claim C1: the solver's computed maximum time value, obtained as
0.01 * 2^52 in double-precision arithmetic, is exactly the double
nearest to 45,035,996,273,704.96 seconds — the dyadic rational
5764607523034235/128 = 45,035,996,273,704.9609375. -/
theorem C1_max_time_value :
    max_time_seconds = fl (4503599627370496 / 100) ∧
    max_time_seconds = 5764607523034235 / 128 := by
  exact ⟨by decide, by decide⟩

/-- Claim C2 fails as stated: at the nonnegative double input
437,090,000,716,941,568 = 6829531261202212 * 2^6 the reconstruction
years*31557600 + days*86400 + hours*3600 + minutes*60 + seconds misses
the input by 32 seconds, far beyond the claimed 1e-6 tolerance. -/
theorem C2_counterexample :
    (0 : ℚ) ≤ 437090000716941568 ∧
    ¬ |reconstruct (format 437090000716941568) - 437090000716941568| ≤ 1 / 1000000 := by
  refine ⟨by norm_num, ?_⟩
  rw [show reconstruct (format 437090000716941568) - 437090000716941568 = -32 from by decide]
  norm_num

/-- Claim C2 (amended): at the input the program actually formats,
max_time_seconds, the reconstruction is exact — in particular within the
claimed 1e-6 tolerance.  (It is not within tolerance for every
nonnegative double input.) -/
theorem C2_reconstruct_at_max :
    reconstruct (format max_time_seconds) = max_time_seconds ∧
    |reconstruct (format max_time_seconds) - max_time_seconds| ≤ 1 / 1000000 := by
  have h : reconstruct (format max_time_seconds) = max_time_seconds := by decide
  refine ⟨h, ?_⟩
  rw [h, sub_self, abs_zero]
  norm_num

/-- Claim C3: the empirically measured spacing at max_time_seconds,
computed as (x_max + x_max * machine_epsilon) - x_max in double
arithmetic, equals 1/128 = 0.0078125 seconds, which is at most 0.01. -/
theorem C3_measured_spacing_le_bound :
    spacing = 1 / 128 ∧ spacing ≤ 1 / 100 := by
  exact ⟨by decide, by decide⟩

/-- Claim C4 fails as stated (with floor): at the nonnegative double
input 145,083,992,418,710,208,512 = 8855224146649793 * 2^14 a running
remainder turns negative and Python's truncation toward zero no longer
agrees with the claimed floor, so the produced breakdown differs from
the floor-based greedy description. -/
theorem C4_counterexample :
    (0 : ℚ) ≤ 145083992418710208512 ∧
    format 145083992418710208512 ≠ formatSpec 145083992418710208512 := by
  exact ⟨by norm_num, by decide⟩

/-- Claim C4 witness: at the input 90,121.5 s every remainder stays
nonnegative and the formatter agrees with the greedy floor
description. -/
theorem C4_witness : format (180243 / 2) = formatSpec (180243 / 2) :=
  C4_format_is_greedy_floor_extraction (180243 / 2) (by norm_num) (by decide) (by decide)
    (by decide)

/-- Claim C5: for the input 90,061.5 seconds the formatter produces
0 years, 1 day, 1 hour, 1 minute, 1.50 seconds. -/
theorem C5_example_input :
    format (180123 / 2) = ⟨0, 1, 1, 1, 3 / 2⟩ := by decide

/-- Claim C6: for the input 0 seconds the formatter returns all-zero
components. -/
theorem C6_zero_input : format 0 = ⟨0, 0, 0, 0, 0⟩ := by decide

/-- Claim C7: at max_time_seconds the years component equals
floor(x_max / 31,557,600) = 1,427,104, on the order of 1.4 million. -/
theorem C7_years_at_max :
    (format max_time_seconds).years = ⌊max_time_seconds / 31557600⌋ ∧
    (format max_time_seconds).years = 1427104 ∧
    1400000 ≤ (format max_time_seconds).years ∧
    (format max_time_seconds).years < 1500000 := by
  exact ⟨by decide, by decide, by decide, by decide⟩

/-- Claim C8 fails as stated: 2^45 = 35,184,372,088,832 is a positive
normal double smaller than max_time_seconds whose measured spacing
equals — is not strictly below — the spacing at max_time_seconds. -/
theorem C8_counterexample :
    isNormalDouble 35184372088832 ∧ (35184372088832 : ℚ) < max_time_seconds ∧
    ¬ spacingAt 35184372088832 < spacingAt max_time_seconds := by
  refine ⟨⟨2 ^ 52, -7, le_refl _, by norm_num, by norm_num, by norm_num, ?_⟩,
    by decide, by decide⟩
  push_cast
  norm_num

/-- Claim C8 (amended): the measured spacing at max_time_seconds is
greater than or equal to (not strictly greater than) the spacing
measured the same way at any smaller positive normal double. -/
theorem C8_spacing_ge_smaller (x : ℚ) (hx : isNormalDouble x)
    (hlt : x < max_time_seconds) :
    spacingAt x ≤ spacingAt max_time_seconds := by
  obtain ⟨m, e, h52, h53, hel, heu, rfl⟩ := hx
  exact spacingAt_le_spacingAt_max m e h52 h53 hel heu hlt

/-- Claim C8 witness: the amended claim applied at the double 2^44. -/
theorem C8_witness :
    isNormalDouble 17592186044416 ∧ (17592186044416 : ℚ) < max_time_seconds ∧
    spacingAt 17592186044416 ≤ spacingAt max_time_seconds := by
  have hd : isNormalDouble 17592186044416 :=
    ⟨2 ^ 52, -8, le_refl _, by norm_num, by norm_num, by norm_num, by push_cast; norm_num⟩
  exact ⟨hd, by decide, C8_spacing_ge_smaller _ hd (by decide)⟩

/-- Claim C9 fails as stated: at the nonnegative double input
35,481,734,634,401,902,592 = 8662532869727027 * 2^12 the remainder is
already negative after the years step. -/
theorem C9_counterexample :
    (0 : ℚ) ≤ 35481734634401902592 ∧ rem1 35481734634401902592 < 0 := by
  exact ⟨by norm_num, by decide⟩

/-- Claim C9 (amended): for the input the program actually formats,
max_time_seconds, the running remainder is nonnegative after each of the
four subtraction steps (but this does not hold for every nonnegative
double input). -/
theorem C9_remainders_nonneg_at_max :
    0 ≤ rem1 max_time_seconds ∧ 0 ≤ rem2 max_time_seconds ∧
    0 ≤ rem3 max_time_seconds ∧ 0 ≤ rem4 max_time_seconds := by
  exact ⟨by decide, by decide, by decide, by decide⟩

/-- Claim C10 fails as stated: at the nonnegative double input
302,030,490,037,615,652,241,408 = 9001210035014619 * 2^25 the division
error leaves more than a year in the remainder, and the days component
is 388 > 365. -/
theorem C10_counterexample :
    (0 : ℚ) ≤ 302030490037615652241408 ∧
    365 < (format 302030490037615652241408).days := by
  exact ⟨by norm_num, by decide⟩

/-- Claim C10 (amended): at the input the program actually formats,
max_time_seconds, the components respect their unit ranges: days at most
365, hours at most 23, minutes at most 59, seconds below 60 (this fails
for some other nonnegative double inputs). -/
theorem C10_ranges_at_max :
    (format max_time_seconds).days ≤ 365 ∧ (format max_time_seconds).hours ≤ 23 ∧
    (format max_time_seconds).minutes ≤ 59 ∧ (format max_time_seconds).seconds < 60 := by
  exact ⟨by decide, by decide, by decide, by decide⟩

end TimeLimits
